import Mathlib

/-!
Verification of the hypercerts repository's allowlist batch-mint workflow
(`frontend/hooks/mintFractionAllowlistBatch.ts`) and its Hyperboard Solidity
contracts (`contracts/src/hyperboards/HyperboardNFT.sol` and the
non-upgradeable `Hyperboard` contract).

The TypeScript hook is embedded as a pure function from its inputs (the
connected address, the eligible claim-id list, the verifier's results and the
outcome of the on-chain transaction) to the ordered list of observable effects
it performs (modal/step updates, the batch-mint call, toasts, the completion
callback, writes to the `txPending` flag) together with an optional thrown
error.  The Solidity functions are embedded as explicit state-passing
functions returning `Except` (a `.error` is a revert).
-/

/-! ## Deduplication: lodash `_.uniqWith(list, _.isEqual)`

`_.uniqWith` walks the list left to right and keeps an element only if no
element equal to it (under the comparator; `_.isEqual` is deep structural
equality, here decidable equality) has been kept already, so the output keeps
the first occurrence of each value, in order of first occurrence. -/

def uniqWithAux {α : Type} [DecidableEq α] (acc : List α) : List α → List α
  | [] => acc
  | x :: xs => if x ∈ acc then uniqWithAux acc xs else uniqWithAux (acc ++ [x]) xs

def uniqWith {α : Type} [DecidableEq α] (l : List α) : List α := uniqWithAux [] l

theorem mem_uniqWithAux {α : Type} [DecidableEq α] (l : List α) (acc : List α) (a : α) :
    a ∈ uniqWithAux acc l ↔ a ∈ acc ∨ a ∈ l := by
  induction l generalizing acc with
  | nil => simp [uniqWithAux]
  | cons x xs ih =>
    simp only [uniqWithAux]
    by_cases hx : x ∈ acc
    · rw [if_pos hx, ih]
      constructor
      · rintro (h | h)
        · exact Or.inl h
        · exact Or.inr (List.mem_cons_of_mem _ h)
      · rintro (h | h)
        · exact Or.inl h
        · rcases List.mem_cons.mp h with rfl | h
          · exact Or.inl hx
          · exact Or.inr h
    · rw [if_neg hx, ih]
      simp only [List.mem_append, List.mem_singleton, List.mem_cons]
      tauto

theorem nodup_uniqWithAux {α : Type} [DecidableEq α] (l acc : List α) (h : acc.Nodup) :
    (uniqWithAux acc l).Nodup := by
  induction l generalizing acc with
  | nil => simpa [uniqWithAux]
  | cons x xs ih =>
    simp only [uniqWithAux]
    by_cases hx : x ∈ acc
    · rw [if_pos hx]
      exact ih acc h
    · rw [if_neg hx]
      refine ih _ ?_
      simp [List.nodup_append, h, hx]

theorem mem_uniqWith {α : Type} [DecidableEq α] (l : List α) (a : α) :
    a ∈ uniqWith l ↔ a ∈ l := by
  simp [uniqWith, mem_uniqWithAux]

theorem nodup_uniqWith {α : Type} [DecidableEq α] (l : List α) :
    (uniqWith l).Nodup :=
  nodup_uniqWithAux l [] List.nodup_nil

/-! ## The data the workflow manipulates -/

/-- A verified claim proof.  Modelled from the spec: the type itself is
declared in `frontend/hooks/verifyFractionClaim.ts`, which is not among the
given source files; its fields are exactly the ones `initializeWrite` reads
(`claimIDContract`, `units`, `proof`), and the spec states that equality of
`ClaimProof` values is structural (all fields match). -/
structure ClaimProof where
  claimIDContract : String
  units : Nat
  proof : List String
  deriving DecidableEq, Repr

/-- One observable effect of the workflow, in the order the hook performs
them: step/modal updates, the invocation of
`client.batchMintClaimFractionsFromAllowlists` with its three positional
sequences, toasts, the invocation of the caller-supplied `onComplete`
callback, and writes to the `txPending` React state. -/
inductive Event where
  | setStep (step : String)
  | hideModal
  | setTxPending (value : Bool)
  | batchMint (claimIDs : List String) (units : List Nat) (proofs : List (List String))
  | toastSuccess
  | toastError
  | onComplete
  deriving DecidableEq, Repr

def Event.isSetTxPending : Event → Bool
  | .setTxPending _ => true
  | _ => false

def Event.isBatchMint : Event → Bool
  | .batchMint _ _ _ => true
  | _ => false

def Event.isOnComplete : Event → Bool
  | .onComplete => true
  | _ => false

/-- How the environment resolves the asynchronous steps of one run:
`Promise.all` over the verifier calls rejects (`throwAtVerify`), the
batch-mint call itself throws (`throwAtMint`), `tx.wait(5)` throws
(`throwAtWait`), or a receipt with the given `status` field is returned. -/
inductive MintOutcome where
  | throwAtVerify
  | throwAtMint
  | throwAtWait
  | receipt (status : Nat)
  deriving DecidableEq, Repr

/-- `results.flat().filter((x) => x)`: flatten the verifier results and drop
falsy (null/undefined) entries. -/
def verifiedOf (results : List (List (Option ClaimProof))) : List ClaimProof :=
  results.flatten.filterMap id

/-- `_.uniqWith(verified, _.isEqual)` applied to the flattened, filtered
verifier results. -/
def uniqueOf (results : List (List (Option ClaimProof))) : List ClaimProof :=
  uniqWith (verifiedOf results)

/-- `unique.map((claimProof) => claimProof.claimIDContract)`. -/
def batchClaimIDs (unique : List ClaimProof) : List String :=
  unique.map fun claimProof => claimProof.claimIDContract

/-- `unique.map((claimProof) => BigInt(claimProof.units))`; unit amounts are
mathematical integers here, so `BigInt` conversion is the identity. -/
def batchUnits (unique : List ClaimProof) : List Nat :=
  unique.map fun claimProof => claimProof.units

/-- `unique.map((claimProof) => claimProof.proof as HexString[])`. -/
def batchProofs (unique : List ClaimProof) : List (List String) :=
  unique.map fun claimProof => claimProof.proof

/-- The `initializeWrite` function of `useMintFractionAllowlistBatch`.

Inputs: the connected (already lower-cased) `address`, the eligibility query's
data `claimIds` (`none` while not yet loaded), the verifier
`verify claimId address` (its flattened-then-filtered results model
`verifyFractionClaim`; a rejecting verifier is the `throwAtVerify` outcome,
which propagates out of `initializeWrite` because the `Promise.all` sits
outside the `try` block), and the transaction `outcome`.

Output: the list of observable effects performed, paired with `some message`
when the function exits by throwing (the two precondition throws and a
verifier rejection) and `none` when it runs to the end of its
`try`/`catch`/`finally`.

Mirrors the source line by line: the two precondition guards throw;
`setStep("proofs")`; when `claimIds` is empty the modal is hidden — and,
because the source has no `return` there, execution continues; the verifier
fan-out, flatten/filter/dedup and the three parallel `map`s; then
`setStep("minting")` and the `try` block: `setTxPending(true)`, the
batch-mint call, `setStep("waiting")`, `tx.wait(5)`, the two receipt-status
`if`s; any throw inside `try` lands in `catch` (an error toast); `finally`
performs `setTxPending(false)`. -/
def initializeWrite (address : Option String) (claimIds : Option (List String))
    (verify : String → String → List (Option ClaimProof)) (outcome : MintOutcome) :
    List Event × Option String :=
  match address with
  | none => ([], some "No address found for current user")
  | some addr =>
    match claimIds with
    | none => ([], some "No claim ids found for the current user")
    | some cids =>
      let pre : List Event :=
        Event.setStep "proofs" :: (if cids.length = 0 then [Event.hideModal] else [])
      let results := cids.map fun claimId => verify claimId addr
      let unique := uniqueOf results
      let claimIDs := batchClaimIDs unique
      let units := batchUnits unique
      let proofs := batchProofs unique
      match outcome with
      | .throwAtVerify => (pre, some "verifyFractionClaim rejected")
      | .throwAtMint =>
          (pre ++ [Event.setStep "minting", Event.setTxPending true,
                   Event.batchMint claimIDs units proofs,
                   Event.toastError, Event.setTxPending false], none)
      | .throwAtWait =>
          (pre ++ [Event.setStep "minting", Event.setTxPending true,
                   Event.batchMint claimIDs units proofs, Event.setStep "waiting",
                   Event.toastError, Event.setTxPending false], none)
      | .receipt status =>
          (pre ++ [Event.setStep "minting", Event.setTxPending true,
                   Event.batchMint claimIDs units proofs, Event.setStep "waiting"]
              ++ (if status = 0 then [Event.toastError] else [])
              ++ (if status = 1 then
                    [Event.toastSuccess, Event.setStep "complete", Event.onComplete]
                  else [])
              ++ [Event.setTxPending false], none)

/-- The value of the `txPending` flag after a list of effects has been
performed; it starts `false` (`useState(false)`). -/
def pendingAfter (trace : List Event) : Bool :=
  trace.foldl (fun b e => match e with | .setTxPending v => v | _ => b) false

/-! ## The eligibility query (`useGetAllEligibility`) -/

/-- One row of the Supabase eligibility table (spec section 3:
`EligibilityRecord`). -/
structure EligibilityRow where
  address : String
  claimId : String
  hidden : Bool
  deriving DecidableEq, Repr

/-- JavaScript's `String.prototype.toLowerCase()` (the runtime primitive the
hook calls on the address), modelled characterwise; addresses are ASCII hex
strings, for which per-character lower-casing is exact. -/
def toLowerCaseJs (s : String) : String := String.mk (s.data.map Char.toLower)

/-- The Supabase select issued by the hook:
`.from(SUPABASE_TABLE).select("*").eq("address", addr).eq("hidden", false)`,
where `addr` is the already lower-cased argument.  The two `.eq` filters
keep exactly the rows whose `address` column equals `addr` and whose
`hidden` column is `false`. -/
def supabaseSelect (table : List EligibilityRow) (addr : String) : List EligibilityRow :=
  table.filter fun row => row.address == addr && row.hidden == false

/-- The query function of `useGetAllEligibility`.  `storageError` is whether
the Supabase call reports an error; on error the response's `data` is null,
so `data?.map((x) => x.claimId)` is undefined and `claimIds ?? []` yields the
empty list, after the error has been logged.  The result pairs the returned
claim-id list with whether an error was logged. -/
def useGetAllEligibility (table : List EligibilityRow) (storageError : Bool)
    (address : String) : List String × Bool :=
  if storageError then ([], true)
  else ((supabaseSelect table (toLowerCaseJs address)).map fun row => row.claimId, false)

/-! ## The Solidity contracts

Addresses, token ids and claim ids are modelled as `Nat` (`0` is the zero
address); a revert is an `Except.error` carrying the custom error from
`libs/Errors.sol`.  The cryptographic primitives (`keccak256`-based EIP-712
digests via `_hashTypedDataV4`, `ECDSA.recover`) and the external
`HypercertMinter.ownerOf` live outside this repository (OpenZeppelin /
external contract), so they are taken as function parameters. -/

abbrev Address := Nat

inductive SolError where
  | ZeroAddress
  | InvalidSigner
  | NotApprovedOrOwner
  | NotOwner
  | ArrayLengthMismatch
  | InvalidTokenId
  deriving DecidableEq, Repr

/-! ### The non-upgradeable `Hyperboard` contract (consent variant) -/

/-- Storage of the non-upgradeable `Hyperboard` contract (the fields the
verified functions touch), plus the `Ownable` owner. -/
structure HyperboardState where
  hypercertMinter : Address
  subgraphEndpoint : String
  baseUri : String
  contractOwner : Address
  allowListedCertsMapping : Nat → List Nat
  consentBasedCertsMapping : Nat → List Nat

inductive HyperboardEvent where
  | GotConsent (tokenId : Nat) (claimId : Nat) (owner : Address)
  | HypercertMinterUpdated (hypercertMinter : Address)
  deriving DecidableEq, Repr

/-- `_consentForHyperboard` (the internal function): reverts with
`NotApprovedOrOwner` unless `hypercertMinter.ownerOf(claimId_) == owner_`,
otherwise pushes `claimId_` onto `consentBasedCertsMapping[tokenId_]` and
emits `GotConsent(tokenId_, claimId_, msg.sender)`. -/
def consentForHyperboardInternal (ownerOf : Nat → Address) (msgSender : Address)
    (st : HyperboardState) (tokenId_ claimId_ : Nat) (owner_ : Address) :
    Except SolError (HyperboardState × List HyperboardEvent) :=
  if ownerOf claimId_ ≠ owner_ then .error .NotApprovedOrOwner
  else
    .ok ({ st with
            consentBasedCertsMapping := fun t =>
              if t = tokenId_ then st.consentBasedCertsMapping t ++ [claimId_]
              else st.consentBasedCertsMapping t },
         [.GotConsent tokenId_ claimId_ msgSender])

/-- `consentForHyperboardWithSignature`: computes the EIP-712 typed-data
digest of `(tokenId_, claimId_)` (the `_hashTypedDataV4(keccak256(abi.encode(
typehash, tokenId_, claimId_)))` composite is the abstract parameter
`hashTypedDataV4Consent`), recovers the signer of `(v, r, s)` over that digest
via the abstract `ecdsaRecover`, reverts with `InvalidSigner` when the
recovered address differs from `signer`, and otherwise delegates to
`_consentForHyperboard` with `signer` as the claimed owner. -/
def consentForHyperboardWithSignature (ownerOf : Nat → Address)
    (hashTypedDataV4Consent : Nat → Nat → Nat)
    (ecdsaRecover : Nat → Nat → Nat → Nat → Address)
    (msgSender : Address) (st : HyperboardState)
    (tokenId_ claimId_ : Nat) (signer : Address) (r s : Nat) (v : Nat) :
    Except SolError (HyperboardState × List HyperboardEvent) :=
  let digest := hashTypedDataV4Consent tokenId_ claimId_
  let recoveredSigner := ecdsaRecover digest v r s
  if recoveredSigner ≠ signer then .error .InvalidSigner
  else consentForHyperboardInternal ownerOf msgSender st tokenId_ claimId_ signer

/-- `setHypercertContract` (`onlyOwner`).  The source's assignment is
`hypercertMinter_ = hypercertMinter;` — it copies the stored state variable
into the local parameter, not the reverse — and then emits
`HypercertMinterUpdated(hypercertMinter_)` with that (overwritten) local. -/
def setHypercertContract (st : HyperboardState) (msgSender : Address)
    (hypercertMinter_ : Address) :
    Except SolError (HyperboardState × List HyperboardEvent) :=
  if msgSender ≠ st.contractOwner then .error .NotOwner
  else
    let hypercertMinter_ := st.hypercertMinter
    .ok (st, [.HypercertMinterUpdated hypercertMinter_])

/-! ### The upgradeable-style `HyperboardNFT.sol` variant -/

/-- Storage of the `Hyperboard` contract in
`contracts/src/hyperboards/HyperboardNFT.sol`: ERC721 ownership
(`owners`, `none` = nonexistent token), the `_counter`, the name/symbol set
by `__ERC721_init`, the endpoint/URI strings, the wallet fields, and the
`_allowListedCertsMapping` (its `allowlistedCerts` array and its per-address
`claimIds` mapping). -/
structure NFTState where
  owners : Nat → Option Address
  counter : Nat
  nftName : String
  nftSymbol : String
  subgraphEndpoint : String
  baseUri : String
  walletImpl : Address
  erc6551Registry : Address
  allowlistedCerts : Nat → List Address
  claimIds : Nat → Address → List Nat

/-- Point-update of the two-level `claimIds` mapping. -/
def writeClaimIds (m : Nat → Address → List Nat) (tokenId : Nat) (cert : Address)
    (ids : List Nat) : Nat → Address → List Nat :=
  fun t a => if t = tokenId ∧ a = cert then ids else m t a

/-- `_setAllowlist` of `HyperboardNFT.sol`: reverts on a length mismatch,
stores the certificate-address array under `tokenId`, and then — as the
source loop does — writes each claim-id list under
`_allowListedCertsMapping[_counter.current()]` (the counter, not `tokenId`)
keyed by the certificate address. -/
def setAllowlistNFT (st : NFTState) (tokenId : Nat)
    (allowlistedCertsAddress_ : List Address)
    (allowlistedClaimIds_ : List (List Nat)) : Except SolError NFTState :=
  if allowlistedCertsAddress_.length ≠ allowlistedClaimIds_.length then
    .error .ArrayLengthMismatch
  else
    .ok { st with
      allowlistedCerts := fun t =>
        if t = tokenId then allowlistedCertsAddress_ else st.allowlistedCerts t,
      claimIds := (allowlistedCertsAddress_.zip allowlistedClaimIds_).foldl
        (fun m pair => writeClaimIds m st.counter pair.1 pair.2) st.claimIds }

/-- `updateAllowListedCerts`: `ownerOf(tokenId)` reverts on a nonexistent
token; a caller who is not the owner gets `NotOwner`; otherwise
`_setAllowlist` runs. -/
def updateAllowListedCerts (st : NFTState) (msgSender : Address) (tokenId : Nat)
    (allowlistedCertsAddress_ : List Address)
    (allowlistedClaimIds_ : List (List Nat)) : Except SolError NFTState :=
  match st.owners tokenId with
  | none => .error .InvalidTokenId
  | some o =>
      if o ≠ msgSender then .error .NotOwner
      else setAllowlistNFT st tokenId allowlistedCertsAddress_ allowlistedClaimIds_

/-- `getAllowListedClaimIds(tokenId, hypercertAddress)`. -/
def getAllowListedClaimIds (st : NFTState) (tokenId : Nat)
    (hypercertAddress : Address) : List Nat :=
  st.claimIds tokenId hypercertAddress

/-- Solidity storage before the constructor body runs: every variable holds
its type's zero value. -/
def zeroNFTState : NFTState where
  owners := fun _ => none
  counter := 0
  nftName := ""
  nftSymbol := ""
  subgraphEndpoint := ""
  baseUri := ""
  walletImpl := 0
  erc6551Registry := 0
  allowlistedCerts := fun _ => []
  claimIds := fun _ _ => []

/-- The constructor of `HyperboardNFT.sol`'s `Hyperboard`.  Its zero-address
guards read the state variables `walletImpl` and `erc6551Registry` — still
zero-initialized at that point — not the parameters `walletImpl_` and
`erc6551Registry_`. -/
def hyperboardNFTConstructor (name_ symbol_ subgraphEndpoint_ baseUri_ : String)
    (walletImpl_ : Address) (erc6551Registry_ : Address) :
    Except SolError NFTState :=
  if zeroNFTState.walletImpl = 0 then .error .ZeroAddress
  else if zeroNFTState.erc6551Registry = 0 then .error .ZeroAddress
  else
    .ok { zeroNFTState with
      walletImpl := walletImpl_
      erc6551Registry := erc6551Registry_
      nftName := name_
      nftSymbol := symbol_
      subgraphEndpoint := subgraphEndpoint_
      baseUri := baseUri_ }

/-! ## Claims about the batch-mint workflow -/

/-- Claim C1 (code bug witnessed): with a connected address and a present but
empty eligible claim-id list, `initializeWrite` hides the modal but — the
source has no `return` after `hideModal()` — still calls
`client.batchMintClaimFractionsFromAllowlists([], [], [])`, and when that
empty batch yields a receipt of status 1 it also invokes the caller-supplied
`onComplete` callback. -/
theorem initializeWrite_empty_list_still_mints :
    (initializeWrite (some "0xaa") (some []) (fun _ _ => []) (.receipt 1)).1 =
      [Event.setStep "proofs", Event.hideModal, Event.setStep "minting",
       Event.setTxPending true, Event.batchMint [] [] [], Event.setStep "waiting",
       Event.toastSuccess, Event.setStep "complete", Event.onComplete,
       Event.setTxPending false] := by rfl

/-- Claim C2: after flattening the verifier results, discarding falsy entries
and deduplicating, the three sequences `initializeWrite` builds (claim ids,
unit amounts, proof arrays) have the same length as the deduplicated list,
the deduplicated list has no repeated `ClaimProof` value, and at every
position `i` the id, unit amount and proof array are the `claimIDContract`,
`units` and `proof` fields of the `ClaimProof` at position `i` of that same
deduplicated list. -/
theorem batch_sequences_aligned (results : List (List (Option ClaimProof))) :
    ((batchClaimIDs (uniqueOf results)).length = (uniqueOf results).length
      ∧ (batchUnits (uniqueOf results)).length = (uniqueOf results).length
      ∧ (batchProofs (uniqueOf results)).length = (uniqueOf results).length)
    ∧ (uniqueOf results).Nodup
    ∧ (∀ i : Nat,
        (batchClaimIDs (uniqueOf results))[i]?
            = ((uniqueOf results)[i]?).map (fun claimProof => claimProof.claimIDContract)
        ∧ (batchUnits (uniqueOf results))[i]?
            = ((uniqueOf results)[i]?).map (fun claimProof => claimProof.units)
        ∧ (batchProofs (uniqueOf results))[i]?
            = ((uniqueOf results)[i]?).map (fun claimProof => claimProof.proof)) := by
  refine ⟨⟨?_, ?_, ?_⟩, ?_, fun i => ⟨?_, ?_, ?_⟩⟩
  · simp [batchClaimIDs]
  · simp [batchUnits]
  · simp [batchProofs]
  · exact nodup_uniqWith (verifiedOf results)
  · simp [batchClaimIDs]
  · simp [batchUnits]
  · simp [batchProofs]

/-- Claim C3: deduplication of verified `ClaimProof` values is structural:
two values whose `claimIDContract`, `units` and `proof` fields all agree are
the same value; `uniqWith` leaves no duplicate value; its output holds
exactly the values of its input; and permuting the input does not change the
set of values in the output. -/
theorem claimProof_dedup_structural :
    (∀ p q : ClaimProof,
        (p.claimIDContract = q.claimIDContract ∧ p.units = q.units ∧ p.proof = q.proof)
          → p = q)
    ∧ (∀ l : List ClaimProof, (uniqWith l).Nodup)
    ∧ (∀ (l : List ClaimProof) (x : ClaimProof), x ∈ uniqWith l ↔ x ∈ l)
    ∧ (∀ l l' : List ClaimProof, l.Perm l' →
        ∀ x : ClaimProof, (x ∈ uniqWith l ↔ x ∈ uniqWith l')) := by
  refine ⟨?_, fun l => nodup_uniqWith l, fun l x => mem_uniqWith l x, ?_⟩
  · rintro ⟨a, b, c⟩ ⟨a', b', c'⟩ ⟨h1, h2, h3⟩
    simp_all
  · intro l l' hperm x
    rw [mem_uniqWith, mem_uniqWith]
    exact hperm.mem_iff

/-- Claim C4: in every run that reaches a transaction receipt, a receipt of
status 1 invokes the completion callback exactly once and sets the step to
`complete`, while a receipt of status 0 never invokes the callback, shows an
error notification, does not throw, and still ends with its `finally`
cleanup (`setTxPending(false)` is the last effect). -/
theorem receipt_status_completion (addr : String) (cids : List String)
    (verify : String → String → List (Option ClaimProof)) (status : Nat) :
    (status = 1 →
        ((initializeWrite (some addr) (some cids) verify (.receipt status)).1.countP
            Event.isOnComplete = 1
          ∧ Event.setStep "complete"
              ∈ (initializeWrite (some addr) (some cids) verify (.receipt status)).1))
    ∧ (status = 0 →
        ((initializeWrite (some addr) (some cids) verify (.receipt status)).1.countP
            Event.isOnComplete = 0
          ∧ Event.toastError ∈ (initializeWrite (some addr) (some cids) verify (.receipt status)).1
          ∧ (initializeWrite (some addr) (some cids) verify (.receipt status)).2 = none
          ∧ (initializeWrite (some addr) (some cids) verify (.receipt status)).1.getLast?
              = some (Event.setTxPending false))) := by
  constructor <;> rintro rfl <;> by_cases h : cids.length = 0 <;>
    simp [initializeWrite, h, List.countP_append, List.countP_cons, Event.isOnComplete,
      List.getLast?_append]

/-- Claim C5: every run of `initializeWrite` ends with `txPending` false (it
is cleared unconditionally by the `finally` block, also when the mint or the
wait throws, and it is never set when a precondition throw or a verifier
rejection aborts the run early); moreover, whenever a run touches the flag at
all, its trace is `A ++ [setTxPending true, batchMint …] ++ mid ++
[setTxPending false]` where neither `A` nor `mid` touches the flag or calls
the mint — the flag is raised immediately before the single transaction
submission, stays raised through its success or failure resolution, and is
lowered as the final effect. -/
theorem txPending_scoped (address : Option String) (claimIds : Option (List String))
    (verify : String → String → List (Option ClaimProof)) (outcome : MintOutcome) :
    pendingAfter (initializeWrite address claimIds verify outcome).1 = false
    ∧ ((initializeWrite address claimIds verify outcome).1.countP Event.isSetTxPending ≠ 0 →
        ∃ (A mid : List Event) (ids : List String) (us : List Nat) (ps : List (List String)),
          (initializeWrite address claimIds verify outcome).1
              = A ++ [Event.setTxPending true, Event.batchMint ids us ps] ++ mid
                  ++ [Event.setTxPending false]
            ∧ A.countP Event.isSetTxPending = 0 ∧ mid.countP Event.isSetTxPending = 0
            ∧ A.countP Event.isBatchMint = 0 ∧ mid.countP Event.isBatchMint = 0) := by
  constructor
  · rcases address with _ | addr
    · rfl
    rcases claimIds with _ | cids
    · rfl
    rcases outcome with _ | _ | _ | status <;> by_cases h : cids.length = 0 <;>
      simp [initializeWrite, h, pendingAfter, List.foldl_append]
  · intro hcount
    rcases address with _ | addr
    · simp [initializeWrite] at hcount
    rcases claimIds with _ | cids
    · simp [initializeWrite] at hcount
    rcases outcome with _ | _ | _ | status
    · by_cases h : cids.length = 0 <;>
        simp [initializeWrite, h, Event.isSetTxPending, List.countP_cons] at hcount
    · by_cases h : cids.length = 0
      · exact ⟨[Event.setStep "proofs", Event.hideModal, Event.setStep "minting"],
          [Event.toastError],
          batchClaimIDs (uniqueOf (cids.map fun claimId => verify claimId addr)),
          batchUnits (uniqueOf (cids.map fun claimId => verify claimId addr)),
          batchProofs (uniqueOf (cids.map fun claimId => verify claimId addr)),
          by simp [initializeWrite, h], by rfl, by rfl, by rfl, by rfl⟩
      · exact ⟨[Event.setStep "proofs", Event.setStep "minting"],
          [Event.toastError],
          batchClaimIDs (uniqueOf (cids.map fun claimId => verify claimId addr)),
          batchUnits (uniqueOf (cids.map fun claimId => verify claimId addr)),
          batchProofs (uniqueOf (cids.map fun claimId => verify claimId addr)),
          by simp [initializeWrite, h], by rfl, by rfl, by rfl, by rfl⟩
    · by_cases h : cids.length = 0
      · exact ⟨[Event.setStep "proofs", Event.hideModal, Event.setStep "minting"],
          [Event.setStep "waiting", Event.toastError],
          batchClaimIDs (uniqueOf (cids.map fun claimId => verify claimId addr)),
          batchUnits (uniqueOf (cids.map fun claimId => verify claimId addr)),
          batchProofs (uniqueOf (cids.map fun claimId => verify claimId addr)),
          by simp [initializeWrite, h], by rfl, by rfl, by rfl, by rfl⟩
      · exact ⟨[Event.setStep "proofs", Event.setStep "minting"],
          [Event.setStep "waiting", Event.toastError],
          batchClaimIDs (uniqueOf (cids.map fun claimId => verify claimId addr)),
          batchUnits (uniqueOf (cids.map fun claimId => verify claimId addr)),
          batchProofs (uniqueOf (cids.map fun claimId => verify claimId addr)),
          by simp [initializeWrite, h], by rfl, by rfl, by rfl, by rfl⟩
    · by_cases h : cids.length = 0
      · refine ⟨[Event.setStep "proofs", Event.hideModal, Event.setStep "minting"],
          [Event.setStep "waiting"]
            ++ (if status = 0 then [Event.toastError] else [])
            ++ (if status = 1 then
                  [Event.toastSuccess, Event.setStep "complete", Event.onComplete]
                else []),
          batchClaimIDs (uniqueOf (cids.map fun claimId => verify claimId addr)),
          batchUnits (uniqueOf (cids.map fun claimId => verify claimId addr)),
          batchProofs (uniqueOf (cids.map fun claimId => verify claimId addr)),
          by simp [initializeWrite, h], by rfl, ?_, by rfl, ?_⟩ <;>
        · by_cases s0 : status = 0 <;> by_cases s1 : status = 1 <;>
            simp [s0, s1, Event.isSetTxPending, Event.isBatchMint,
              List.countP_append, List.countP_cons]
      · refine ⟨[Event.setStep "proofs", Event.setStep "minting"],
          [Event.setStep "waiting"]
            ++ (if status = 0 then [Event.toastError] else [])
            ++ (if status = 1 then
                  [Event.toastSuccess, Event.setStep "complete", Event.onComplete]
                else []),
          batchClaimIDs (uniqueOf (cids.map fun claimId => verify claimId addr)),
          batchUnits (uniqueOf (cids.map fun claimId => verify claimId addr)),
          batchProofs (uniqueOf (cids.map fun claimId => verify claimId addr)),
          by simp [initializeWrite, h], by rfl, ?_, by rfl, ?_⟩ <;>
        · by_cases s0 : status = 0 <;> by_cases s1 : status = 1 <;>
            simp [s0, s1, Event.isSetTxPending, Event.isBatchMint,
              List.countP_append, List.countP_cons]

/-- Claim C6: the eligibility query returns exactly the `claimId` strings of
the table rows whose `address` column equals the lower-cased input address
and whose `hidden` flag is false; when the storage read reports an error the
hook logs it and returns the empty list instead of propagating the error. -/
theorem eligibility_query_spec (table : List EligibilityRow) (address : String) :
    (∀ c : String,
        c ∈ (useGetAllEligibility table false address).1
          ↔ ∃ row : EligibilityRow, row ∈ table ∧ row.address = toLowerCaseJs address
              ∧ row.hidden = false ∧ row.claimId = c)
    ∧ useGetAllEligibility table true address = ([], true) := by
  refine ⟨fun c => ?_, rfl⟩
  simp only [useGetAllEligibility, supabaseSelect, if_neg Bool.false_ne_true,
    List.mem_map, List.mem_filter, Bool.and_eq_true, beq_iff_eq]
  constructor
  · rintro ⟨row, ⟨hmem, ha, hh⟩, rfl⟩
    exact ⟨row, hmem, ha, hh, rfl⟩
  · rintro ⟨row, hmem, ha, hh, rfl⟩
    exact ⟨row, ⟨hmem, ha, hh⟩, rfl⟩

/-! ## Claims about the Solidity contracts -/

/-- Claim C7: `consentForHyperboardWithSignature` reverts with
`InvalidSigner` whenever the address recovered from the EIP-712 digest of
`(tokenId_, claimId_)` under `(v, r, s)` differs from `signer`; a claim id is
appended to the hyperboard's consented list exactly when the recovered
address equals `signer` and `signer` owns the hypercert claim according to
`hypercertMinter.ownerOf`. -/
theorem consent_with_signature_spec (ownerOf : Nat → Address)
    (hashTypedDataV4Consent : Nat → Nat → Nat)
    (ecdsaRecover : Nat → Nat → Nat → Nat → Address)
    (msgSender : Address) (st : HyperboardState) (tokenId_ claimId_ : Nat)
    (signer : Address) (r s : Nat) (v : Nat) :
    (ecdsaRecover (hashTypedDataV4Consent tokenId_ claimId_) v r s ≠ signer →
        consentForHyperboardWithSignature ownerOf hashTypedDataV4Consent ecdsaRecover
            msgSender st tokenId_ claimId_ signer r s v = .error .InvalidSigner)
    ∧ (∀ (st' : HyperboardState) (events : List HyperboardEvent),
        consentForHyperboardWithSignature ownerOf hashTypedDataV4Consent ecdsaRecover
            msgSender st tokenId_ claimId_ signer r s v = .ok (st', events) →
          ecdsaRecover (hashTypedDataV4Consent tokenId_ claimId_) v r s = signer
          ∧ ownerOf claimId_ = signer
          ∧ st'.consentBasedCertsMapping tokenId_
              = st.consentBasedCertsMapping tokenId_ ++ [claimId_]
          ∧ events = [.GotConsent tokenId_ claimId_ msgSender])
    ∧ (ecdsaRecover (hashTypedDataV4Consent tokenId_ claimId_) v r s = signer →
        ownerOf claimId_ = signer →
        ∃ st' : HyperboardState,
          consentForHyperboardWithSignature ownerOf hashTypedDataV4Consent ecdsaRecover
              msgSender st tokenId_ claimId_ signer r s v
            = .ok (st', [.GotConsent tokenId_ claimId_ msgSender])
          ∧ st'.consentBasedCertsMapping tokenId_
              = st.consentBasedCertsMapping tokenId_ ++ [claimId_]) := by
  unfold consentForHyperboardWithSignature consentForHyperboardInternal
  by_cases hrec : ecdsaRecover (hashTypedDataV4Consent tokenId_ claimId_) v r s = signer <;>
    by_cases hown : ownerOf claimId_ = signer <;>
      simp [hrec, hown]

/-- Claim C8 (code bug witnessed): in a state where token 0 exists (owner:
address 7) and the counter stands at 2, the owner's call
`updateAllowListedCerts(0, [9], [[42]])` succeeds, yet
`getAllowListedClaimIds(0, 9)` still returns `[]` — the loop in
`_setAllowlist` wrote the claim-id list under `_counter.current()` (token 2),
as `getAllowListedClaimIds(2, 9) = [42]` shows. -/
theorem updateAllowListedCerts_writes_wrong_token :
    (updateAllowListedCerts
        { zeroNFTState with
            owners := fun t => if t = 0 then some 7 else none, counter := 2 }
        7 0 [9] [[42]]).map
      (fun st' => (getAllowListedClaimIds st' 0 9, getAllowListedClaimIds st' 2 9))
      = .ok ([], [42]) := by rfl

/-- Claim C9: whatever its arguments — in particular non-zero `walletImpl_`
and `erc6551Registry_` — the constructor of the `HyperboardNFT.sol` variant
reverts with `ZeroAddress`, because its guards test the still-zero state
variables `walletImpl` and `erc6551Registry` instead of the parameters; no
instance can be created through this constructor. -/
theorem hyperboardNFT_constructor_always_reverts
    (name_ symbol_ subgraphEndpoint_ baseUri_ : String)
    (walletImpl_ : Address) (erc6551Registry_ : Address) :
    hyperboardNFTConstructor name_ symbol_ subgraphEndpoint_ baseUri_
        walletImpl_ erc6551Registry_ = .error .ZeroAddress := rfl

/-- Claim C10: called by the contract owner with any argument,
`setHypercertContract` returns the state completely unchanged — the source
assigns the current state into the local parameter instead of the reverse —
while still emitting a `HypercertMinterUpdated` event (which therefore
carries the old, unchanged minter address). -/
theorem setHypercertContract_leaves_state_unchanged (st : HyperboardState)
    (hypercertMinter_ : Address) :
    setHypercertContract st st.contractOwner hypercertMinter_
      = .ok (st, [HyperboardEvent.HypercertMinterUpdated st.hypercertMinter]) := by
  simp [setHypercertContract]
